import Mathlib

/-!
Verification development for the TILDE repository (modeling.py).

We give a shallow embedding of the numeric core of the two scoring
models and the trainer glue, over exact rationals.  Tensors are nested
lists of rationals, token ids are naturals, attention masks are nested
lists of naturals with 0/1 entries.  The transformer backbone, the
sigmoid and the logarithm are external collaborators and enter the
embedding as abstract function parameters.
-/

namespace TildeModel

/-- Elementwise rectifier on a rational: torch.relu on one entry. -/
def reluQ (x : ℚ) : ℚ := max x 0

/-- torch.relu on a 2-D tensor, modelled as a list of rows. -/
def relu2 (m : List (List ℚ)) : List (List ℚ) := m.map (·.map reluQ)

/-- Maximum of a list of rationals, as torch.max over a tensor dimension:
defined on the nonempty case by folding max from the head; on the empty
list (where torch raises) we return a junk value 0. -/
def listMax : List ℚ → ℚ
  | [] => 0
  | x :: xs => xs.foldl max x

/-- One entry of the exact-match gate built inside compute_tok_score_cart:
the broadcast comparison doc_input_ids == qry_input_ids, cast to float. -/
def exact_match_entry (did qid : ℕ) : ℚ := if did = qid then 1 else 0

/-- The whole 4-D exact-match gate tensor of compute_tok_score_cart,
indexed (query example, query position, document example, document
position), exactly as the broadcast of the unsqueezed id tensors. -/
def exact_match_tensor (qryIds docIds : List (List ℕ)) :
    List (List (List (List ℚ))) :=
  qryIds.map fun qrow =>
    qrow.map fun qid =>
      docIds.map fun drow =>
        drow.map fun did => exact_match_entry did qid

/-- The max-pooled gated score scores[q][lq][d] of compute_tok_score_cart:
maximum over document positions ld of
(qry_reps[q][lq] * doc_reps[d][ld]) * exact_match[q][lq][d][ld]. -/
def pooledScore (docReps : List (List ℚ)) (docIds : List (List ℕ))
    (qryReps : List (List ℚ)) (qryIds : List (List ℕ))
    (q lq d : ℕ) : ℚ :=
  listMax ((List.range (docReps.getD d []).length).map fun ld =>
    ((qryReps.getD q []).getD lq 0 * (docReps.getD d []).getD ld 0) *
      exact_match_entry ((docIds.getD d []).getD ld 0)
        ((qryIds.getD q []).getD lq 0))

/-- compute_tok_score_cart: per (query example, document example), the
sum over query positions lq of the pooled score times the attention
mask, where the sum skips query position 0 (the slice [:, 1:]). -/
def compute_tok_score_cart (docReps : List (List ℚ)) (docIds : List (List ℕ))
    (qryReps : List (List ℚ)) (qryIds : List (List ℕ))
    (qryMask : List (List ℕ)) : List (List ℚ) :=
  (List.range qryReps.length).map fun q =>
    (List.range docReps.length).map fun d =>
      (((List.range (qryReps.getD q []).length).drop 1).map fun lq =>
        pooledScore docReps docIds qryReps qryIds q lq d *
          (((qryMask.getD q []).getD lq 0 : ℕ) : ℚ)).sum

/-- torch.ones_like on an id tensor, as the all-ones rational tensor of
the same shape (the trailing singleton dim of unsqueeze(2) is elided). -/
def ones_like (m : List (List ℕ)) : List (List ℚ) := m.map (·.map fun _ => 1)

/-- The per-row separator position computed by mask_sep:
attention_mask.sum(1) - 1, as a signed integer. -/
def sep_pos (row : List ℕ) : ℤ := (row.sum : ℤ) - 1

/-- torch scatter_ of a single zero into one row at a signed index:
in-range indices write a 0, out-of-range indices raise (none). -/
def scatterRowZero (row : List ℕ) (idx : ℤ) : Option (List ℕ) :=
  if 0 ≤ idx ∧ idx.toNat < row.length then some (row.set idx.toNat 0)
  else none

/-- mask_sep on a single mask row: write a zero at position sum - 1. -/
def maskSepRow (row : List ℕ) : Option (List ℕ) :=
  scatterRowZero row (sep_pos row)

/-- mask_sep on the whole query attention mask: each row gets a zero
scattered at its separator position; the functional value returned is
the mutated mask (the source mutates in place and returns it).  The
whole operation raises (none) when any row scatter is out of range. -/
def mask_sep : List (List ℕ) → Option (List (List ℕ))
  | [] => some []
  | r :: rs =>
    match maskSepRow r, mask_sep rs with
    | some r2, some rs2 => some (r2 :: rs2)
    | _, _ => none

/-- TILDEv2.forward, up to the cross-entropy call: encode the document
side (projection output rectified), mask the query separator, score all
query-document pairs with all-ones query weights, and build the ranking
labels arange(scores.size(0)) * train_group_size.  Returns the score
matrix together with the labels fed to the ranking loss. -/
def forward (docProj : List (List ℚ)) (docIds qryIds : List (List ℕ))
    (qryMask : List (List ℕ)) (trainGroupSize : ℕ) :
    Option (List (List ℚ) × List ℕ) :=
  let docReps := relu2 docProj
  match mask_sep qryMask with
  | none => none
  | some maskedQryMask =>
    let qryReps := ones_like qryIds
    let scores := compute_tok_score_cart docReps docIds qryReps qryIds maskedQryMask
    let labels := (List.range scores.length).map (· * trainGroupSize)
    some (scores, labels)

/-- The three feature keys required by TILDEv2.encode. -/
def requiredEncodeKeys : List String := ["input_ids", "attention_mask", "token_type_ids"]

/-- TILDEv2.encode: assert that every required key is present in the
features (assertion failure modelled as none), then run the backbone
and the projection (abstract collaborators) and rectify the result. -/
def encode {F H : Type} (bert : F → H) (tok_proj : H → List (List ℚ))
    (keys : F → List String) (features : F) : Option (List (List ℚ)) :=
  if requiredEncodeKeys.all (fun k => k ∈ keys features) then
    some (relu2 (tok_proj (bert features)))
  else none

/-- The artifacts the trainer can write on a checkpoint save. -/
inductive Artifact where
  | modelWeights
  | tokenizerFiles
  | trainingArgs
  deriving DecidableEq, Repr

/-- The state of the trainer that TILDEv2Trainer saving consults. -/
structure TrainerState where
  hasTokenizer : Bool
  isWorldProcessZero : Bool
  deriving DecidableEq, Repr

/-- TILDEv2Trainer saving: the model weights are saved, the tokenizer
files are saved only when a tokenizer is configured and this process is
world process zero, and the training-args blob is saved. -/
def saveWrites (s : TrainerState) : List Artifact :=
  [Artifact.modelWeights] ++
  (if s.hasTokenizer ∧ s.isWorldProcessZero then [Artifact.tokenizerFiles] else []) ++
  [Artifact.trainingArgs]

/-- A constructed torch DataLoader, with the arguments the trainer
passes to it. -/
structure DataLoaderModel (δ : Type) where
  dataset : δ
  batchSize : ℕ
  dropLast : Bool
  numWorkers : ℕ
  deriving Repr

/-- TILDEv2Trainer.get_train_dataloader: raise a ValueError at once
when no training dataset is configured; otherwise build the loader. -/
def get_train_dataloader {δ : Type} (trainDataset : Option δ)
    (batchSize numWorkers : ℕ) : Except String (DataLoaderModel δ) :=
  match trainDataset with
  | none => Except.error "Trainer: training requires a train_dataset."
  | some d => Except.ok ⟨d, batchSize, true, numWorkers⟩

/-- The tokenizer, seen by Model A only through its vocabulary size and
through the stop-id set returned by the external get_stop_ids. -/
structure Tokenizer where
  vocabSize : ℕ
  stopIds : Finset ℕ

/-- TILDE construction, line num_valid_tok = vocab_size - len(get_stop_ids(tokenizer)). -/
def num_valid_tok (tk : Tokenizer) : ℕ := tk.vocabSize - tk.stopIds.card

/-- torch.where(y == v)[0]: the indices of the entries of y equal to v. -/
def idxWhereEq (y : List ℕ) (v : ℕ) : List ℕ :=
  (List.range y.length).filter (fun j => y.getD j 0 = v)

/-- Fancy-indexing a probability vector by a list of indices. -/
def selectAt (p : List ℚ) (ids : List ℕ) : List ℚ := ids.map (fun j => p.getD j 0)

/-- torch.sigmoid applied elementwise to a batch of logit vectors; the
sigmoid itself is an abstract numeric collaborator sg. -/
def sigmoidProbs (sg : ℚ → ℚ) (outputs : List (List ℚ)) : List (List ℚ) :=
  outputs.map (·.map sg)

/-- torch.sum(torch.log(prob[where(y == 1)])): the positive log term of
one example, with the logarithm abstract. -/
def posTermSum (lg : ℚ → ℚ) (prob : List ℚ) (y : List ℕ) : ℚ :=
  ((selectAt prob (idxWhereEq y 1)).map lg).sum

/-- torch.sum(torch.log(1 - prob[where(y == 0)])): the negative log
term of one example. -/
def negTermSum (lg : ℚ → ℚ) (prob : List ℚ) (y : List ℕ) : ℚ :=
  ((selectAt prob (idxWhereEq y 0)).map (fun p => lg (1 - p))).sum

/-- TILDE.training_step after the two backbone calls: the first-position
logits of each side enter as passageOutputs and queryOutputs.  The loop
accumulates, for i in range(len(yqs)), the two log-term sums of each
side into two subtractive accumulators, and the loss is their total
divided by (num_valid_tok * 2). -/
def training_step (lg sg : ℚ → ℚ) (numValidTok : ℕ)
    (passageOutputs queryOutputs : List (List ℚ))
    (yqs yds : List (List ℕ)) : ℚ :=
  let batchPassageProb := sigmoidProbs sg passageOutputs
  let batchQueryProb := sigmoidProbs sg queryOutputs
  let batchSize := yqs.length
  let passagePosLoss := (List.range batchSize).foldl (fun acc i =>
    acc - (posTermSum lg (batchPassageProb.getD i []) (yqs.getD i []) +
           negTermSum lg (batchPassageProb.getD i []) (yqs.getD i []))) 0
  let queryPosLoss := (List.range batchSize).foldl (fun acc i =>
    acc - (posTermSum lg (batchQueryProb.getD i []) (yds.getD i []) +
           negTermSum lg (batchQueryProb.getD i []) (yds.getD i []))) 0
  (passagePosLoss + queryPosLoss) / ((numValidTok : ℚ) * 2)

/-- The loss of one side as the specification words it: the sum, over
every example of that side, of -sum(log p) over positive-labelled
indices plus -sum(log(1-p)) over negative-labelled indices. -/
def specSideLoss (lg : ℚ → ℚ) (probs : List (List ℚ))
    (labels : List (List ℕ)) : ℚ :=
  ((List.range labels.length).map (fun i =>
    -(((idxWhereEq (labels.getD i []) 1).map
        (fun j => lg ((probs.getD i []).getD j 0))).sum) +
    -(((idxWhereEq (labels.getD i []) 0).map
        (fun j => lg (1 - (probs.getD i []).getD j 0))).sum))).sum

/-- The Model A loss as the specification words it: the accumulated sum
over both sides and every example, divided by (num_valid_vocab_tokens * 2). -/
def specLoss (lg sg : ℚ → ℚ) (numValidTok : ℕ)
    (passageOutputs queryOutputs : List (List ℚ))
    (yqs yds : List (List ℕ)) : ℚ :=
  (specSideLoss lg (sigmoidProbs sg passageOutputs) yqs +
   specSideLoss lg (sigmoidProbs sg queryOutputs) yds) / ((numValidTok : ℚ) * 2)

end TildeModel

namespace TildeModel

/-- C7: encode fails (assertion) exactly when one of the three required
feature keys is missing; with all three present it returns the rectified
projection of the backbone output, raising nothing itself. -/
theorem encode_assert_spec {F H : Type} (bert : F → H) (tok_proj : H → List (List ℚ))
    (keys : F → List String) (features : F) :
    (encode bert tok_proj keys features = none ↔
      ∃ k ∈ requiredEncodeKeys, k ∉ keys features) ∧
    ((∀ k ∈ requiredEncodeKeys, k ∈ keys features) →
      encode bert tok_proj keys features = some (relu2 (tok_proj (bert features)))) := by
  by_cases h : ∀ k ∈ requiredEncodeKeys, k ∈ keys features
  · have hb : requiredEncodeKeys.all (fun k => k ∈ keys features) = true := by
      simpa [List.all_eq_true] using h
    constructor
    · simp only [encode, hb, if_true]
      constructor
      · intro hn; exact absurd hn (by simp)
      · rintro ⟨k, hk, hnk⟩; exact absurd (h k hk) hnk
    · intro _; simp [encode, hb]
  · have hb : requiredEncodeKeys.all (fun k => k ∈ keys features) = false := by
      rcases not_forall.mp h with ⟨k, hk⟩
      rcases Classical.not_imp.mp hk with ⟨hkm, hnk⟩
      simp only [List.all_eq_false]
      exact ⟨k, hkm, by simpa using hnk⟩
    constructor
    · simp only [encode, hb, if_false]
      constructor
      · intro _
        rcases not_forall.mp h with ⟨k, hk⟩
        rcases Classical.not_imp.mp hk with ⟨hkm, hnk⟩
        exact ⟨k, hkm, hnk⟩
      · intro _; rfl
    · intro hall; exact absurd hall h

/-- Witness for C7 at a concrete feature dictionary. -/
theorem encode_assert_spec_witness :
    (∀ k ∈ requiredEncodeKeys,
       k ∈ (fun l : List String => l) ["input_ids", "attention_mask", "token_type_ids"]) ∧
    encode (fun _ => (0 : ℕ)) (fun _ => [[(1 : ℚ), -2]]) (fun l : List String => l)
      ["input_ids", "attention_mask", "token_type_ids"] =
      some (relu2 ((fun _ => [[(1 : ℚ), -2]]) ((fun _ => (0 : ℕ))
        (["input_ids", "attention_mask", "token_type_ids"] : List String)))) :=
  ⟨by decide,
   (encode_assert_spec (fun _ => (0 : ℕ)) (fun _ => [[(1 : ℚ), -2]]) (fun l : List String => l)
     ["input_ids", "attention_mask", "token_type_ids"]).2 (by decide)⟩

/-- C8: get_train_dataloader raises the configuration ValueError when
and only when no training dataset is configured; with a dataset it
returns the constructed loader.  The error branch constructs no loader
value at all, so the failure is immediate, not deferred. -/
theorem get_train_dataloader_spec {δ : Type} (td : Option δ) (bs nw : ℕ) :
    (td = none → get_train_dataloader td bs nw =
      Except.error "Trainer: training requires a train_dataset.") ∧
    (∀ d, td = some d → get_train_dataloader td bs nw = Except.ok ⟨d, bs, true, nw⟩) := by
  constructor
  · rintro rfl; rfl
  · rintro d rfl; rfl

/-- Witness for C8 at a concrete missing and a concrete present dataset. -/
theorem get_train_dataloader_spec_witness :
    get_train_dataloader (none : Option ℕ) 4 2 =
      Except.error "Trainer: training requires a train_dataset." ∧
    get_train_dataloader (some 7) 4 2 = Except.ok ⟨7, 4, true, 2⟩ :=
  ⟨(get_train_dataloader_spec (none : Option ℕ) 4 2).1 rfl,
   (get_train_dataloader_spec (some 7) 4 2).2 7 rfl⟩

/-- C9 (counterexample): the claim that every save writes all three
artifacts and that saving happens only on the world-process-zero worker
fails on the concrete state with a tokenizer configured on a worker
that is not world process zero: the model weights and training args are
still written there, and the tokenizer files are not written. -/
theorem save_claim_counterexample :
    ¬ ((Artifact.modelWeights ∈ saveWrites ⟨true, false⟩ ∧
        Artifact.tokenizerFiles ∈ saveWrites ⟨true, false⟩ ∧
        Artifact.trainingArgs ∈ saveWrites ⟨true, false⟩) ∧
       (TrainerState.isWorldProcessZero ⟨true, false⟩ = false →
        saveWrites ⟨true, false⟩ = [])) := by
  decide

/-- C9 (amended): every save writes the model weights and the
training-args blob unconditionally; the tokenizer files are written
exactly when a tokenizer is configured and the process is world
process zero. -/
theorem save_writes_spec (s : TrainerState) :
    Artifact.modelWeights ∈ saveWrites s ∧
    Artifact.trainingArgs ∈ saveWrites s ∧
    (Artifact.tokenizerFiles ∈ saveWrites s ↔
      (s.hasTokenizer ∧ s.isWorldProcessZero)) := by
  obtain ⟨ht, wz⟩ := s
  cases ht <;> cases wz <;> decide

/-- C2 (counterexample): in the scenario of one query against eight
candidate documents with the true positive at document index 3, the
labels built by forward are arange(1) * 8 = [0], not [3]; which
document is the positive never enters the label computation. -/
theorem forward_labels_counterexample :
    (forward [[0], [0], [0], [0], [0], [0], [0], [0]]
      [[1], [1], [1], [1], [1], [1], [1], [1]]
      [[5, 7]] [[1, 1]] 8).map (fun p => p.2) = some [0] ∧
    ([0] : List ℕ) ≠ [3] :=
  ⟨rfl, by decide⟩

/-- C2 (amended): whenever forward succeeds, the ranking labels equal
arange(number of rows of the score matrix) * train_group_size, and the
score matrix has one row per query example; in the one-query scenario
the labels are [0]. -/
theorem forward_labels_spec (docProj : List (List ℚ))
    (docIds qryIds qryMask : List (List ℕ)) (g : ℕ)
    (scores : List (List ℚ)) (labels : List ℕ)
    (h : forward docProj docIds qryIds qryMask g = some (scores, labels)) :
    labels = (List.range scores.length).map (· * g) ∧
    scores.length = qryIds.length := by
  unfold forward at h
  cases hm : mask_sep qryMask with
  | none => rw [hm] at h; exact absurd h (by simp)
  | some m =>
    rw [hm] at h
    simp only [Option.some.injEq, Prod.mk.injEq] at h
    obtain ⟨hs, hl⟩ := h
    subst hs
    constructor
    · exact hl.symm
    · simp [compute_tok_score_cart, ones_like]

/-- On a 0/1 row with positive sum, the row scatter succeeds and writes
a zero at position sum - 1. -/
theorem maskSepRow_eq_set (r : List ℕ) (h01 : ∀ v ∈ r, v ≤ 1) (hpos : 0 < r.sum) :
    maskSepRow r = some (r.set (r.sum - 1) 0) := by
  have hlen : r.sum ≤ r.length := by
    simpa using List.sum_le_card_nsmul r 1 h01
  unfold maskSepRow scatterRowZero sep_pos
  have h1 : ((r.sum : ℤ) - 1).toNat = r.sum - 1 := by omega
  rw [if_pos ⟨by omega, by rw [h1]; omega⟩, h1]

/-- When every row scatter succeeds with the given value, mask_sep
returns the row-wise scattered mask. -/
theorem mask_sep_eq_map (m : List (List ℕ))
    (h : ∀ r ∈ m, maskSepRow r = some (r.set (r.sum - 1) 0)) :
    mask_sep m = some (m.map fun r => r.set (r.sum - 1) 0) := by
  induction m with
  | nil => rfl
  | cons r rs ih =>
    have hr := h r (List.mem_cons_self r rs)
    have hrs := ih (fun x hx => h x (List.mem_cons_of_mem r hx))
    simp [mask_sep, hr, hrs]

/-- When some row scatter fails, mask_sep fails. -/
theorem mask_sep_eq_none (m : List (List ℕ))
    (h : ∃ r ∈ m, maskSepRow r = none) :
    mask_sep m = none := by
  induction m with
  | nil => simp at h
  | cons r rs ih =>
    rcases h with ⟨x, hx, hxn⟩
    rcases List.mem_cons.mp hx with hx | hx
    · subst hx
      simp [mask_sep, hxn]
    · rw [mask_sep, ih ⟨x, hx, hxn⟩]
      cases maskSepRow r <;> rfl

/-- Witness for C2 amended at the concrete one-query scenario. -/
theorem forward_labels_spec_witness :
    ([0] : List ℕ) =
      (List.range ([[(0 : ℚ), 0, 0, 0, 0, 0, 0, 0]] : List (List ℚ)).length).map (· * 8) ∧
    ([[(0 : ℚ), 0, 0, 0, 0, 0, 0, 0]] : List (List ℚ)).length =
      ([[5]] : List (List ℕ)).length :=
  forward_labels_spec [[0], [0], [0], [0], [0], [0], [0], [0]]
    [[1], [1], [1], [1], [1], [1], [1], [1]] [[5]] [[1]] 8
    [[0, 0, 0, 0, 0, 0, 0, 0]] [0] (by decide)

/-- C3: on a query attention mask (0/1 entries, each row with at least
one attended position), mask_sep succeeds and returns the mask in which
each row has a zero written at index sum(row) - 1, every other entry of
every row unchanged, and row lengths preserved; the returned value is
the updated mask itself. -/
theorem mask_sep_spec (m : List (List ℕ))
    (h01 : ∀ r ∈ m, ∀ v ∈ r, v ≤ 1)
    (hpos : ∀ r ∈ m, 0 < r.sum) :
    ∃ m2, mask_sep m = some m2 ∧ m2.length = m.length ∧
      ∀ i, i < m.length →
        (m2.getD i []).length = (m.getD i []).length ∧
        (m2.getD i []).getD ((m.getD i []).sum - 1) 0 = 0 ∧
        ∀ j, j < (m.getD i []).length → j ≠ (m.getD i []).sum - 1 →
          (m2.getD i []).getD j 0 = (m.getD i []).getD j 0 := by
  refine ⟨m.map fun r => r.set (r.sum - 1) 0, ?_, by simp, ?_⟩
  · exact mask_sep_eq_map m (fun r hr => maskSepRow_eq_set r (h01 r hr) (hpos r hr))
  · intro i hi
    have hrow : (m.map fun r => r.set (r.sum - 1) 0).getD i [] =
        (m.getD i []).set ((m.getD i []).sum - 1) 0 := by
      rw [List.getD_eq_getElem?_getD, List.getElem?_map, List.getElem?_eq_getElem hi,
        List.getD_eq_getElem?_getD, List.getElem?_eq_getElem hi]
      rfl
    have hmem : m.getD i [] ∈ m := by
      rw [List.getD_eq_getElem?_getD, List.getElem?_eq_getElem hi]
      exact List.getElem_mem hi
    have hsum : (m.getD i []).sum ≤ (m.getD i []).length := by
      simpa using List.sum_le_card_nsmul (m.getD i []) 1 (h01 _ hmem)
    have hlt : (m.getD i []).sum - 1 < (m.getD i []).length := by
      have := hpos _ hmem
      omega
    refine ⟨by rw [hrow]; simp, ?_, ?_⟩
    · rw [hrow, List.getD_eq_getElem?_getD, List.getElem?_set_eq_of_lt _ hlt]
      rfl
    · intro j hj hne
      rw [hrow, List.getD_eq_getElem?_getD, List.getElem?_set_ne (fun h => hne h.symm),
        ← List.getD_eq_getElem?_getD]

/-- Witness for C3 at a concrete two-row mask. -/
theorem mask_sep_spec_witness :
    (∀ r ∈ ([[1, 1, 0], [1, 0, 1]] : List (List ℕ)), ∀ v ∈ r, v ≤ 1) ∧
    (∀ r ∈ ([[1, 1, 0], [1, 0, 1]] : List (List ℕ)), 0 < r.sum) ∧
    (∃ m2, mask_sep [[1, 1, 0], [1, 0, 1]] = some m2 ∧
      m2.length = ([[1, 1, 0], [1, 0, 1]] : List (List ℕ)).length ∧
      ∀ i, i < ([[1, 1, 0], [1, 0, 1]] : List (List ℕ)).length →
        (m2.getD i []).length =
          (([[1, 1, 0], [1, 0, 1]] : List (List ℕ)).getD i []).length ∧
        (m2.getD i []).getD
          ((([[1, 1, 0], [1, 0, 1]] : List (List ℕ)).getD i []).sum - 1) 0 = 0 ∧
        ∀ j, j < (([[1, 1, 0], [1, 0, 1]] : List (List ℕ)).getD i []).length →
          j ≠ (([[1, 1, 0], [1, 0, 1]] : List (List ℕ)).getD i []).sum - 1 →
          (m2.getD i []).getD j 0 =
            (([[1, 1, 0], [1, 0, 1]] : List (List ℕ)).getD i []).getD j 0) :=
  ⟨by decide, by decide, mask_sep_spec [[1, 1, 0], [1, 0, 1]] (by decide) (by decide)⟩

/-- C10: on a 0/1 mask, a row with no attended position makes the
separator index -1 and its scatter out of range (the row operation
raises), and the whole mask_sep raises when such a row exists; under
the precondition that every row has a positive sum, every scatter index
is within its row bounds and mask_sep succeeds. -/
theorem mask_sep_safety (m : List (List ℕ))
    (h01 : ∀ r ∈ m, ∀ v ∈ r, v ≤ 1) :
    (∀ r ∈ m, r.sum = 0 → sep_pos r = -1 ∧ maskSepRow r = none) ∧
    ((∃ r ∈ m, r.sum = 0) → mask_sep m = none) ∧
    ((∀ r ∈ m, 0 < r.sum) →
      (∀ r ∈ m, 0 ≤ sep_pos r ∧ (sep_pos r).toNat < r.length) ∧
      (mask_sep m).isSome = true) := by
  have hrow0 : ∀ r : List ℕ, r.sum = 0 → sep_pos r = -1 ∧ maskSepRow r = none := by
    intro r h0
    have hsep : sep_pos r = -1 := by
      unfold sep_pos
      omega
    refine ⟨hsep, ?_⟩
    unfold maskSepRow scatterRowZero
    rw [hsep, if_neg]
    intro hcon
    omega
  refine ⟨fun r _ => hrow0 r, ?_, ?_⟩
  · rintro ⟨r, hr, h0⟩
    exact mask_sep_eq_none m ⟨r, hr, (hrow0 r h0).2⟩
  · intro hpos
    constructor
    · intro r hr
      have hsum : r.sum ≤ r.length := by
        simpa using List.sum_le_card_nsmul r 1 (h01 r hr)
      have := hpos r hr
      unfold sep_pos
      omega
    · rw [mask_sep_eq_map m (fun r hr => maskSepRow_eq_set r (h01 r hr) (hpos r hr))]
      rfl

/-- Witness for C10 at a concrete mask with one all-zero row. -/
theorem mask_sep_safety_witness :
    (∀ r ∈ ([[0, 0], [1, 1]] : List (List ℕ)), ∀ v ∈ r, v ≤ 1) ∧
    ((∀ r ∈ ([[0, 0], [1, 1]] : List (List ℕ)), r.sum = 0 →
        sep_pos r = -1 ∧ maskSepRow r = none) ∧
     ((∃ r ∈ ([[0, 0], [1, 1]] : List (List ℕ)), r.sum = 0) →
        mask_sep [[0, 0], [1, 1]] = none) ∧
     ((∀ r ∈ ([[0, 0], [1, 1]] : List (List ℕ)), 0 < r.sum) →
        (∀ r ∈ ([[0, 0], [1, 1]] : List (List ℕ)),
          0 ≤ sep_pos r ∧ (sep_pos r).toNat < r.length) ∧
        (mask_sep [[0, 0], [1, 1]]).isSome = true)) :=
  ⟨by decide, mask_sep_safety [[0, 0], [1, 1]] (by decide)⟩

/-- getD through a map, at an in-range index. -/
theorem getD_map_of_lt {α β : Type} (f : α → β) (l : List α) (i : ℕ)
    (h : i < l.length) (da : α) (db : β) :
    (l.map f).getD i db = f (l.getD i da) := by
  rw [List.getD_eq_getElem?_getD, List.getElem?_map, List.getElem?_eq_getElem h,
    List.getD_eq_getElem?_getD, List.getElem?_eq_getElem h]
  rfl

/-- An in-range getD is a member of the list. -/
theorem getD_mem_of_lt {α : Type} (l : List α) (i : ℕ) (h : i < l.length) (d : α) :
    l.getD i d ∈ l := by
  rw [List.getD_eq_getElem?_getD, List.getElem?_eq_getElem h]
  exact List.getElem_mem h

/-- An out-of-range getD is the default. -/
theorem getD_eq_default_of_le {α : Type} (l : List α) (i : ℕ) (h : l.length ≤ i) (d : α) :
    l.getD i d = d := by
  rw [List.getD_eq_getElem?_getD, List.getElem?_eq_none h]
  rfl

/-- Every doubly indexed entry of a tensor of nonnegatives is
nonnegative, defaults included. -/
theorem getD_getD_nonneg (m : List (List ℚ))
    (h : ∀ r ∈ m, ∀ x ∈ r, 0 ≤ x) (i j : ℕ) :
    0 ≤ (m.getD i []).getD j 0 := by
  by_cases hi : i < m.length
  · have hr : m.getD i [] ∈ m := getD_mem_of_lt m i hi []
    by_cases hj : j < (m.getD i []).length
    · exact h _ hr _ (getD_mem_of_lt _ j hj 0)
    · rw [getD_eq_default_of_le _ j (le_of_not_lt hj)]
  · rw [getD_eq_default_of_le m i (le_of_not_lt hi)]
    simp

/-- The base value of a fold by max is a lower bound of the fold. -/
theorem le_foldl_max (l : List ℚ) (x : ℚ) : x ≤ l.foldl max x := by
  induction l generalizing x with
  | nil => simp
  | cons y ys ih =>
    simp only [List.foldl_cons]
    exact le_trans (le_max_left x y) (ih (max x y))

/-- The pooled torch.max of a list of nonnegatives is nonnegative. -/
theorem listMax_nonneg (l : List ℚ) (h : ∀ x ∈ l, 0 ≤ x) : 0 ≤ listMax l := by
  cases l with
  | nil => simp [listMax]
  | cons x xs =>
    exact le_trans (h x (List.mem_cons_self x xs)) (le_foldl_max xs x)

/-- C5: every in-range entry of the exact-match gate tensor built
inside compute_tok_score_cart is exactly 1 when the query token id at
that position equals the document token id, and exactly 0 when the two
ids are distinct. -/
theorem exact_match_tensor_spec (qryIds docIds : List (List ℕ)) (q lq d ld : ℕ)
    (hq : q < qryIds.length) (hlq : lq < (qryIds.getD q []).length)
    (hd : d < docIds.length) (hld : ld < (docIds.getD d []).length) :
    ((qryIds.getD q []).getD lq 0 = (docIds.getD d []).getD ld 0 →
      ((((exact_match_tensor qryIds docIds).getD q []).getD lq []).getD d []).getD ld 0 = 1) ∧
    ((qryIds.getD q []).getD lq 0 ≠ (docIds.getD d []).getD ld 0 →
      ((((exact_match_tensor qryIds docIds).getD q []).getD lq []).getD d []).getD ld 0 = 0) := by
  have h1 : (exact_match_tensor qryIds docIds).getD q [] =
      (qryIds.getD q []).map fun qid =>
        docIds.map fun drow => drow.map fun did => exact_match_entry did qid := by
    unfold exact_match_tensor
    exact getD_map_of_lt _ qryIds q hq [] []
  have h2 : (((exact_match_tensor qryIds docIds).getD q []).getD lq []) =
      docIds.map fun drow => drow.map fun did =>
        exact_match_entry did ((qryIds.getD q []).getD lq 0) := by
    rw [h1]
    exact getD_map_of_lt _ (qryIds.getD q []) lq hlq 0 []
  have h3 : ((((exact_match_tensor qryIds docIds).getD q []).getD lq []).getD d []) =
      (docIds.getD d []).map fun did =>
        exact_match_entry did ((qryIds.getD q []).getD lq 0) := by
    rw [h2]
    exact getD_map_of_lt _ docIds d hd [] []
  have h4 : ((((exact_match_tensor qryIds docIds).getD q []).getD lq []).getD d []).getD ld 0 =
      exact_match_entry ((docIds.getD d []).getD ld 0) ((qryIds.getD q []).getD lq 0) := by
    rw [h3]
    exact getD_map_of_lt _ (docIds.getD d []) ld hld 0 0
  rw [h4]
  unfold exact_match_entry
  constructor
  · intro he
    rw [if_pos he.symm]
  · intro hne
    rw [if_neg (fun h => hne h.symm)]

/-- Witness for C5 at concrete ids, in the equal-id case. -/
theorem exact_match_tensor_spec_witness :
    (0 < ([[3, 4]] : List (List ℕ)).length) ∧
    (1 < (([[3, 4]] : List (List ℕ)).getD 0 []).length) ∧
    (0 < ([[4, 9]] : List (List ℕ)).length) ∧
    (0 < (([[4, 9]] : List (List ℕ)).getD 0 []).length) ∧
    (((([[3, 4]] : List (List ℕ)).getD 0 []).getD 1 0 =
        (([[4, 9]] : List (List ℕ)).getD 0 []).getD 0 0 →
      ((((exact_match_tensor [[3, 4]] [[4, 9]]).getD 0 []).getD 1 []).getD 0 []).getD 0 0 = 1) ∧
     ((([[3, 4]] : List (List ℕ)).getD 0 []).getD 1 0 ≠
        (([[4, 9]] : List (List ℕ)).getD 0 []).getD 0 0 →
      ((((exact_match_tensor [[3, 4]] [[4, 9]]).getD 0 []).getD 1 []).getD 0 []).getD 0 0 = 0)) :=
  ⟨by decide, by decide, by decide, by decide,
   exact_match_tensor_spec [[3, 4]] [[4, 9]] 0 1 0 0
     (by decide) (by decide) (by decide) (by decide)⟩

/-- C4: with all-ones query weights (as forward passes them), the
output of compute_tok_score_cart has one row per query example and one
column per document example, and with nonnegative document weights and
a 0/1 attention mask every cell is nonnegative. -/
theorem compute_tok_score_cart_spec (docReps : List (List ℚ))
    (docIds qryIds qryMask : List (List ℕ))
    (hD : docReps.length = docIds.length)
    (hw : ∀ r ∈ docReps, ∀ x ∈ r, 0 ≤ x)
    (_hm : ∀ r ∈ qryMask, ∀ v ∈ r, v ≤ 1) :
    (compute_tok_score_cart docReps docIds (ones_like qryIds) qryIds qryMask).length
      = qryIds.length ∧
    (∀ row ∈ compute_tok_score_cart docReps docIds (ones_like qryIds) qryIds qryMask,
      row.length = docIds.length) ∧
    (∀ row ∈ compute_tok_score_cart docReps docIds (ones_like qryIds) qryIds qryMask,
      ∀ x ∈ row, 0 ≤ x) := by
  refine ⟨by simp [compute_tok_score_cart, ones_like], ?_, ?_⟩
  · intro row hrow
    rcases List.mem_map.mp hrow with ⟨q, _, rfl⟩
    simp [hD]
  · intro row hrow x hx
    rcases List.mem_map.mp hrow with ⟨q, _, rfl⟩
    rcases List.mem_map.mp hx with ⟨d, _, rfl⟩
    apply List.sum_nonneg
    intro t ht
    rcases List.mem_map.mp ht with ⟨lq, _, rfl⟩
    apply mul_nonneg
    · apply listMax_nonneg
      intro y hy
      rcases List.mem_map.mp hy with ⟨ld, _, rfl⟩
      apply mul_nonneg
      · apply mul_nonneg
        · apply getD_getD_nonneg
          intro r hr z hz
          rcases List.mem_map.mp hr with ⟨r0, _, rfl⟩
          rcases List.mem_map.mp hz with ⟨z0, _, rfl⟩
          exact zero_le_one
        · exact getD_getD_nonneg docReps hw d ld
      · unfold exact_match_entry
        split <;> norm_num
    · exact Nat.cast_nonneg _

/-- Witness for C4 at a concrete two-document, one-query batch. -/
theorem compute_tok_score_cart_spec_witness :
    (([[ (1:ℚ), 2], [0, 3]] : List (List ℚ)).length =
      ([[7, 8], [7, 7]] : List (List ℕ)).length) ∧
    (∀ r ∈ ([[ (1:ℚ), 2], [0, 3]] : List (List ℚ)), ∀ x ∈ r, 0 ≤ x) ∧
    (∀ r ∈ ([[1, 1]] : List (List ℕ)), ∀ v ∈ r, v ≤ 1) ∧
    ((compute_tok_score_cart [[1, 2], [0, 3]] [[7, 8], [7, 7]]
        (ones_like [[5, 7]]) [[5, 7]] [[1, 1]]).length =
      ([[5, 7]] : List (List ℕ)).length ∧
     (∀ row ∈ compute_tok_score_cart [[1, 2], [0, 3]] [[7, 8], [7, 7]]
        (ones_like [[5, 7]]) [[5, 7]] [[1, 1]],
       row.length = ([[7, 8], [7, 7]] : List (List ℕ)).length) ∧
     (∀ row ∈ compute_tok_score_cart [[1, 2], [0, 3]] [[7, 8], [7, 7]]
        (ones_like [[5, 7]]) [[5, 7]] [[1, 1]],
       ∀ x ∈ row, 0 ≤ x)) :=
  ⟨by decide, by decide, by decide,
   compute_tok_score_cart_spec [[1, 2], [0, 3]] [[7, 8], [7, 7]] [[5, 7]] [[1, 1]]
     (by decide) (by decide) (by decide)⟩

/-- A subtractive fold is the start value minus the sum of the terms. -/
theorem foldl_sub_eq_sub_sum (f : ℕ → ℚ) (l : List ℕ) (a : ℚ) :
    l.foldl (fun acc i => acc - f i) a = a - (l.map f).sum := by
  induction l generalizing a with
  | nil => simp
  | cons x xs ih =>
    simp only [List.foldl_cons, List.map_cons, List.sum_cons, ih]
    ring

/-- Summing the negations negates the sum. -/
theorem sum_map_neg_terms (l : List ℕ) (f : ℕ → ℚ) :
    (l.map (fun i => -(f i))).sum = -((l.map f).sum) := by
  induction l with
  | nil => simp
  | cons x xs ih =>
    simp only [List.map_cons, List.sum_cons, ih]
    ring

/-- The positive log term is the sum over positive-labelled indices of
the log probability at that index. -/
theorem posTermSum_eq (lg : ℚ → ℚ) (p : List ℚ) (y : List ℕ) :
    posTermSum lg p y = ((idxWhereEq y 1).map (fun j => lg (p.getD j 0))).sum := by
  unfold posTermSum selectAt
  rw [List.map_map]
  rfl

/-- The negative log term is the sum over negative-labelled indices of
the log of one minus the probability at that index. -/
theorem negTermSum_eq (lg : ℚ → ℚ) (p : List ℚ) (y : List ℕ) :
    negTermSum lg p y = ((idxWhereEq y 0).map (fun j => lg (1 - p.getD j 0))).sum := by
  unfold negTermSum selectAt
  rw [List.map_map]
  rfl

/-- The spec-worded loss of one side is the negated sum of the
per-example term pairs of that side. -/
theorem specSideLoss_eq (lg : ℚ → ℚ) (probs : List (List ℚ))
    (labels : List (List ℕ)) :
    specSideLoss lg probs labels =
      -(((List.range labels.length).map (fun i =>
          posTermSum lg (probs.getD i []) (labels.getD i []) +
          negTermSum lg (probs.getD i []) (labels.getD i []))).sum) := by
  unfold specSideLoss
  rw [← sum_map_neg_terms]
  congr 1
  apply List.map_congr_left
  intro i _
  rw [posTermSum_eq, negTermSum_eq]
  ring

/-- C1: for every Model A batch (both sides of equal batch length), the
loss of training_step equals the spec formula: the accumulated sum over
both sides and every example of -sum(log p) over positive-labelled
indices plus -sum(log(1-p)) over negative-labelled indices, divided by
(num_valid_vocab_tokens * 2) with num_valid_vocab_tokens the vocabulary
size minus the number of stop ids computed at construction. -/
theorem training_step_eq_spec (lg sg : ℚ → ℚ) (tk : Tokenizer)
    (pOut qOut : List (List ℚ)) (yqs yds : List (List ℕ))
    (hlen : yqs.length = yds.length) :
    training_step lg sg (num_valid_tok tk) pOut qOut yqs yds =
      specLoss lg sg (tk.vocabSize - tk.stopIds.card) pOut qOut yqs yds := by
  have hnv : num_valid_tok tk = tk.vocabSize - tk.stopIds.card := rfl
  rw [hnv]
  unfold training_step specLoss
  simp only [foldl_sub_eq_sub_sum, specSideLoss_eq]
  rw [hlen]
  ring

/-- Witness for C1 at a concrete batch with identity collaborators. -/
theorem training_step_eq_spec_witness :
    ([[1, 0]] : List (List ℕ)).length = ([[0, 1]] : List (List ℕ)).length ∧
    training_step (fun x => x) (fun x => x) (num_valid_tok ⟨30, {0, 1, 2}⟩)
      [[(1 : ℚ), 2]] [[(3 : ℚ), 4]] [[1, 0]] [[0, 1]] =
    specLoss (fun x => x) (fun x => x) (30 - ({0, 1, 2} : Finset ℕ).card)
      [[(1 : ℚ), 2]] [[(3 : ℚ), 4]] [[1, 0]] [[0, 1]] :=
  ⟨by decide,
   training_step_eq_spec (fun x => x) (fun x => x) ⟨30, {0, 1, 2}⟩
     [[(1 : ℚ), 2]] [[(3 : ℚ), 4]] [[1, 0]] [[0, 1]] (by decide)⟩

/-- C6: an all-ones label vector makes the negative log-term sum of
that example exactly 0, and an all-zeros label vector makes the
positive log-term sum exactly 0: both are sums over an empty index
set. -/
theorem empty_label_terms (lg : ℚ → ℚ) (prob : List ℚ) (y : List ℕ) :
    ((∀ v ∈ y, v = 1) → negTermSum lg prob y = 0) ∧
    ((∀ v ∈ y, v = 0) → posTermSum lg prob y = 0) := by
  constructor
  · intro h
    have hnil : idxWhereEq y 0 = [] := by
      unfold idxWhereEq
      rw [List.filter_eq_nil_iff]
      intro j hj
      have hjl : j < y.length := List.mem_range.mp hj
      have hv := h (y.getD j 0) (getD_mem_of_lt y j hjl 0)
      rw [List.getD_eq_getElem?_getD] at hv
      simp [hv]
    unfold negTermSum selectAt
    rw [hnil]
    rfl
  · intro h
    have hnil : idxWhereEq y 1 = [] := by
      unfold idxWhereEq
      rw [List.filter_eq_nil_iff]
      intro j hj
      have hjl : j < y.length := List.mem_range.mp hj
      have hv := h (y.getD j 0) (getD_mem_of_lt y j hjl 0)
      rw [List.getD_eq_getElem?_getD] at hv
      simp [hv]
    unfold posTermSum selectAt
    rw [hnil]
    rfl

/-- Witness for C6 at a concrete all-ones and a concrete all-zeros
label vector. -/
theorem empty_label_terms_witness :
    ((∀ v ∈ ([1, 1] : List ℕ), v = 1) ∧
      negTermSum (fun x => x) [(1 : ℚ)/2, 1/3] [1, 1] = 0) ∧
    ((∀ v ∈ ([0, 0] : List ℕ), v = 0) ∧
      posTermSum (fun x => x) [(1 : ℚ)/2, 1/3] [0, 0] = 0) :=
  ⟨⟨by decide, (empty_label_terms (fun x => x) [(1 : ℚ)/2, 1/3] [1, 1]).1 (by decide)⟩,
   ⟨by decide, (empty_label_terms (fun x => x) [(1 : ℚ)/2, 1/3] [0, 0]).2 (by decide)⟩⟩

end TildeModel
